import Mathlib

/-!
Verification of the Efficient-Tuning-LLMs repository pieces referenced by the
claims: the `Prompter` class, the `evaluate` streaming consumer loop, the
`generate_with_callback` worker, the gradio input components (all from
`gradio_qlora_webserver.py`), `get_last_checkpoint` and
`find_all_linear_names` (from `chatllms/utils/model_utils.py`), and the
streaming adapter (`Iteratorize` / `Stream` from
`chatllms/utils/stream_server.py`, whose source file is not present in the
repository snapshot; it is modelled from the specification).

Python strings are embedded as `List Char`; Python string methods used by the
source (`split`, `strip`, `startswith`, `replace`, `int()`) are embedded as
executable Lean functions below.
-/

set_option maxRecDepth 16384

/-- Python strings, embedded as lists of characters. -/
abbrev PyStr := List Char

/-- Index of the first occurrence of `sep` as a contiguous substring of `s`,
`none` when there is none (for nonempty `sep`). -/
def findSub (sep : PyStr) : PyStr → Option Nat
  | [] => if sep.isPrefixOf [] then some 0 else none
  | c :: t =>
    if sep.isPrefixOf (c :: t) then some 0
    else (findSub sep t).map (fun n => n + 1)

/-- Whether `sep` occurs as a contiguous substring of `s` (executable). -/
def containsSub (sep s : PyStr) : Bool := (findSub sep s).isSome

/-- Fuel-driven worker for `pySplit`; the fuel `s.length` suffices because a
nonempty separator consumes at least one character per round. -/
def splitOnAux (sep : PyStr) : Nat → PyStr → List PyStr
  | 0, s => [s]
  | fuel + 1, s =>
    match findSub sep s with
    | none => [s]
    | some i => s.take i :: splitOnAux sep fuel (s.drop (i + sep.length))

/-- Embedding of Python `s.split(sep)` for a nonempty separator. -/
def pySplit (s sep : PyStr) : List PyStr := splitOnAux sep s.length s

/-- Embedding of Python `s.replace(old, new)` (all non-overlapping
occurrences, left to right). -/
def pyReplace (s old new : PyStr) : PyStr := List.intercalate new (pySplit s old)

/-- Embedding of Python `s.startswith(p)`. -/
def pyStartswith (p s : PyStr) : Bool := p.isPrefixOf s

/-- Embedding of Python `s.strip()`: remove leading and trailing
whitespace. -/
def pyStrip (s : PyStr) : PyStr :=
  ((s.dropWhile Char.isWhitespace).reverse.dropWhile Char.isWhitespace).reverse

/-- Digits-to-number helper for `pyInt`: `none` on an empty string or any
non-digit character. -/
def digitsVal : PyStr → Option Nat
  | [] => none
  | [c] => if c.isDigit then some (c.toNat - '0'.toNat) else none
  | c :: t =>
    if c.isDigit then
      (digitsVal t).map (fun n => (c.toNat - '0'.toNat) * 10 ^ t.length + n)
    else none

/-- Embedding of Python `int(s)`: optional surrounding whitespace, optional
sign, then a nonempty run of digits; `none` models `ValueError`. -/
def pyInt (s : PyStr) : Option Int :=
  match pyStrip s with
  | '-' :: ds => (digitsVal ds).map (fun n => -(n : Int))
  | '+' :: ds => (digitsVal ds).map (fun n => (n : Int))
  | ds => (digitsVal ds).map (fun n => (n : Int))

/-- Embedding of `os.path.join(a, b)` for a plain relative component. -/
def pyJoin (a b : PyStr) : PyStr := a ++ '/' :: b

/-!
## Prompter (`gradio_qlora_webserver.py`, lines 13-85)

The two template dictionaries hold concrete format strings; we embed each
format string applied to its arguments as the concatenation of its literal
segments with the argument strings (the effect of Python `str.format`).
Note that the default `PROMPT_DICT` entry for `prompt_input` does not use the
`{input}` placeholder at all.
-/

/-- The literal `'### Response:'` separator (`self.reponse_split`). -/
def respSep : PyStr := "### Response:".toList

/-- Leading literal segment of `ALPACA_PROMPT_DICT['prompt_input']`, up to the
`{instruction}` placeholder. -/
def alpacaInputHeader : PyStr :=
  ("Below is an instruction that describes a task, paired with an input that provides further context. "
   ++ "Write a response that appropriately completes the request.\n\n"
   ++ "### Instruction:\n").toList

/-- Middle literal segment of `ALPACA_PROMPT_DICT['prompt_input']`, between
`{instruction}` and `{input}`. -/
def alpacaInputMid : PyStr := "\n\n### Input:\n".toList

/-- Leading literal segment of `ALPACA_PROMPT_DICT['prompt_no_input']`. -/
def alpacaNoInputHeader : PyStr :=
  ("Below is an instruction that describes a task. "
   ++ "Write a response that appropriately completes the request.\n\n"
   ++ "### Instruction:\n").toList

/-- Trailing literal segment shared by all four templates:
`'\n\n### Response:'`. -/
def promptTail : PyStr := "\n\n### Response:".toList

/-- Which template dictionary a `Prompter` instance holds
(`ALPACA_PROMPT_DICT` when constructed with `'alpaca'`, else
`PROMPT_DICT`). -/
inductive PromptDict
  | alpacaDict
  | defaultDict
deriving DecidableEq

/-- Embedding of `Prompter.__init__`: `ALPACA_PROMPT_DICT if prompt_template == 'alpaca'
else PROMPT_DICT`. -/
def prompterOf (prompt_template : Option PyStr) : PromptDict :=
  if prompt_template = some ("alpaca".toList) then .alpacaDict else .defaultDict

/-- The `prompt_input` template of the chosen dictionary, applied to
`instruction` and `input` (the effect of `.format(...)`). -/
def fmtPromptInput (d : PromptDict) (instruction input : PyStr) : PyStr :=
  match d with
  | .alpacaDict => alpacaInputHeader ++ instruction ++ alpacaInputMid ++ input ++ promptTail
  | .defaultDict => instruction ++ promptTail

/-- The `prompt_no_input` template of the chosen dictionary, applied to
`instruction`. -/
def fmtPromptNoInput (d : PromptDict) (instruction : PyStr) : PyStr :=
  match d with
  | .alpacaDict => alpacaNoInputHeader ++ instruction ++ promptTail
  | .defaultDict => instruction ++ promptTail

/-- Embedding of `Prompter.generate_prompt`: choose the template by whether `input` is
`None`, then append `response` when it is truthy (a nonempty string). -/
def generate_prompt (d : PromptDict) (instruction : PyStr)
    (input response : Option PyStr) : PyStr :=
  let prompt_text :=
    match input with
    | some inp => fmtPromptInput d instruction inp
    | none => fmtPromptNoInput d instruction
  match response with
  | some r => if r.isEmpty then prompt_text else prompt_text ++ r
  | none => prompt_text

/-- Embedding of `Prompter.get_response`: `output.split('### Response:')[1].strip()`.
The list indexing `[1]` is partial in Python; `none` models the
`IndexError` raised when the split yields fewer than two parts. -/
def get_response (output : PyStr) : Option PyStr :=
  ((pySplit output respSep).get? 1).map pyStrip

/-!
## The streaming consumer loop of `evaluate`
(`gradio_qlora_webserver.py`, lines 198-207)

`Iteratorize` (the generator) lives in `chatllms/utils/stream_server.py`,
which is absent from the repository snapshot; per the specification it yields
the per-step cumulative outputs in the order the steps were produced, so the
loop body runs once per generation step output.  The loop body itself is
translated from the source: decode, break when the last token is the EOS id,
otherwise yield `prompter.get_response(decoded_output)`.
-/

/-- The `for output in generator:` loop body of `evaluate` in streaming mode,
run over the sequence of step outputs.  `output[-1]` is modelled by
`List.getLast?`; the step outputs produced by `model.generate` always contain
at least the prompt tokens, so they are nonempty and `getLast?` agrees with
Python's `output[-1]`. -/
def consumeLoop (decode : List Nat → PyStr) (eos : Nat) : List (List Nat) → List (Option PyStr)
  | [] => []
  | o :: rest =>
    let decoded_output := decode o
    if o.getLast? = some eos then []
    else get_response decoded_output :: consumeLoop decode eos rest

/-!
## `generate_with_callback` and the control flow of `evaluate`
(`gradio_qlora_webserver.py`, lines 148-220)
-/

/-- An entry of the `stopping_criteria` list handed to `model.generate`.
`Stream(callback_func=callback)` is represented by the identity of the
callback it wraps; other criteria are opaque. -/
inductive Criterion
  | stream (callback : Nat)
  | other (tag : Nat)
deriving DecidableEq

/-- The keyword arguments assembled in `generate_params` and passed through
`generate_with_callback` to `model.generate`. -/
structure GenKwargs where
  inputIds : List Nat
  maxNewTokens : Nat
  returnDictInGenerate : Bool
  outputScores : Bool
  stoppingCriteria : Option (List Criterion)
deriving DecidableEq

/-- A record of one invocation of the model's blocking `generate`
operation. -/
structure GenerateCall where
  params : GenKwargs
deriving DecidableEq

/-- Embedding of `generate_with_callback` (lines 185-191): `setdefault` a fresh
`StoppingCriteriaList` when the caller passed none, append exactly one
`Stream(callback_func=callback)` to it, and invoke `model.generate(**kwargs)`
once.  The returned list records the generate invocations made. -/
def generate_with_callback (callback : Nat) (kwargs : GenKwargs) : List GenerateCall :=
  let sc := kwargs.stoppingCriteria.getD []
  let kwargs1 := { kwargs with stoppingCriteria := some (sc ++ [Criterion.stream callback]) }
  [⟨kwargs1⟩]

/-- The `generate_params` dictionary built in `evaluate` (lines 173-179): it
contains no `stopping_criteria` key. -/
def evaluateGenParams (inputIds : List Nat) (maxNewTokens : Nat) : GenKwargs :=
  { inputIds := inputIds
    maxNewTokens := maxNewTokens
    returnDictInGenerate := true
    outputScores := true
    stoppingCriteria := none }

/-- Externally observable behaviour of the opaque model for one request: the
cumulative step outputs its `generate` reports through the stopping-criteria
hook, and the final sequence it returns. -/
structure ModelBeh where
  steps : List (List Nat)
  final : List Nat

/-- Events `evaluate` can trigger on its collaborators. -/
inductive EvEvent
  | createIteratorize
  | modelGenerateCall
deriving DecidableEq

/-- The branch structure of `evaluate` (lines 181-220): when `stream_output`
is true it wraps `generate_with_callback` in `Iteratorize` (one streaming
adapter creation, whose worker invokes `model.generate` once) and runs the
consumer loop; when false it performs a single synchronous `model.generate`
call and yields one final response. -/
def evaluateRun (mdl : ModelBeh) (decode : List Nat → PyStr) (eos : Nat)
    (inputIds : List Nat) (maxNewTokens : Nat) (stream_output : Bool) :
    List EvEvent × List (Option PyStr) :=
  if stream_output then
    (EvEvent.createIteratorize ::
      (generate_with_callback 0 (evaluateGenParams inputIds maxNewTokens)).map
        (fun _ => EvEvent.modelGenerateCall),
     consumeLoop decode eos mdl.steps)
  else
    ([EvEvent.modelGenerateCall], [get_response (decode mdl.final)])

/-!
## The gradio input components of `main`
(`gradio_qlora_webserver.py`, lines 223-254)
-/

/-- A `gr.components.Slider(minimum=..., maximum=..., step=..., ...)`. -/
structure Slider where
  minimum : ℚ
  maximum : ℚ
  step : Option ℚ

/-- The values a slider lets the web layer submit: within the range, and on
the step grid anchored at the minimum when a step is configured. -/
def Slider.allows (s : Slider) (v : ℚ) : Prop :=
  s.minimum ≤ v ∧ v ≤ s.maximum ∧
    ∀ st, s.step = some st → ∃ k : ℕ, v = s.minimum + (k : ℚ) * st

/-- The component `Slider(minimum=0, maximum=1, value=1.0, label='Temperature')`. -/
def temperatureSlider : Slider := ⟨0, 1, none⟩

/-- The component `Slider(minimum=0, maximum=1, value=1.0, label='Top p')`. -/
def topPSlider : Slider := ⟨0, 1, none⟩

/-- The component `Slider(minimum=0, maximum=100, step=1, value=50, label='Top k')`. -/
def topKSlider : Slider := ⟨0, 100, some 1⟩

/-- The component `Slider(minimum=1, maximum=4, step=1, value=4, label='Beams')`. -/
def beamsSlider : Slider := ⟨1, 4, some 1⟩

/-- The component `Slider(minimum=16, maximum=1024, step=32, value=128,
label='Max new tokens')`. -/
def maxNewTokensSlider : Slider := ⟨16, 1024, some 32⟩

/-- One request the web layer submits to `evaluate`: the values of the input
components, in the order of the `inputs` list of `gr.Interface`. -/
structure EvalRequest where
  instruction : PyStr
  input : PyStr
  temperature : ℚ
  topP : ℚ
  topK : ℚ
  numBeams : ℚ
  maxNewTokens : ℚ
  streamOutput : Bool

/-- A request the web layer can actually submit: every slider value is one
its component allows (textboxes and the checkbox are unconstrained). -/
def submittable (r : EvalRequest) : Prop :=
  temperatureSlider.allows r.temperature ∧ topPSlider.allows r.topP ∧
    topKSlider.allows r.topK ∧ beamsSlider.allows r.numBeams ∧
    maxNewTokensSlider.allows r.maxNewTokens

/-- The parameter bounds asserted by the specification: temperature and top-p
in `[0,1]`, top-k an integer `≥ 1`, beam count an integer `≥ 1`, max new
tokens an integer. -/
def specParamBounds (r : EvalRequest) : Prop :=
  (0 ≤ r.temperature ∧ r.temperature ≤ 1) ∧
  (0 ≤ r.topP ∧ r.topP ≤ 1) ∧
  (∃ n : ℤ, r.topK = (n : ℚ) ∧ 1 ≤ n) ∧
  (∃ n : ℤ, r.numBeams = (n : ℚ) ∧ 1 ≤ n) ∧
  (∃ n : ℤ, r.maxNewTokens = (n : ℚ))

/-!
## The streaming adapter (spec-modelled)

The `Iteratorize` / `Stream` classes live in
`chatllms/utils/stream_server.py`, which is not part of the repository
snapshot (only its import and call sites are).  The definitions in this
section are therefore modelled from the specification's description of the
Worker Execution Lane, Callback Bridge, Bounded Handoff Channel and Consumer
Iteration Wrapper.
-/

/-- Modelled from the spec: an item moving through the Bounded Handoff
Channel — one step's cumulative output, the normal-completion sentinel, or an
exception raised by the blocking call (identified abstractly). -/
inductive GenMsg
  | step (o : List Nat)
  | sentinel
  | exc (e : Nat)
deriving DecidableEq

/-- Modelled from the spec: the sequence of items the Worker Execution Lane
publishes for a run that performs the given steps and then either completes
normally (`fail = none`) or raises (`fail = some e`): one `step` item per
generation step, in order, followed by the terminal marker (the exception
object itself when the blocking call raised). -/
def workerMsgs (steps : List (List Nat)) (fail : Option Nat) : List GenMsg :=
  steps.map GenMsg.step ++
    [match fail with
     | some e => GenMsg.exc e
     | none => GenMsg.sentinel]

/-- Modelled from the spec: the Consumer Iteration Wrapper's translation of
dequeued items into sequence semantics — yield each `step` item, end cleanly
on the sentinel, re-raise on an exception marker.  The result is the list of
yielded outputs and the exception re-raised in the consumer's execution
context, if any. -/
def consumeMsgs : List GenMsg → List (List Nat) × Option Nat
  | [] => ([], none)
  | GenMsg.step o :: rest =>
    let r := consumeMsgs rest
    (o :: r.1, r.2)
  | GenMsg.sentinel :: _ => ([], none)
  | GenMsg.exc e :: _ => ([], some e)

/-- Modelled from the spec: the worker lane's position inside one round of
the blocking call — about to execute a generation step, about to `put` the
step's output into the channel, about to check the StopFlag, or
terminated. -/
inductive WPhase
  | gen
  | putting
  | checking
  | finished
deriving DecidableEq

/-- Modelled from the spec: the joint state of the streaming adapter — the
channel slot contents (step indices), the StopFlag, the worker phase, the
number of generation steps executed, and the number of step outputs the
consumer has taken. -/
structure AdapterState where
  slot : List Nat
  flag : Bool
  phase : WPhase
  produced : Nat
  taken : Nat
deriving DecidableEq

/-- Modelled from the spec: the initial adapter state — empty channel,
StopFlag unset, worker about to run its first generation step. -/
def adapterInit : AdapterState := ⟨[], false, WPhase.gen, 0, 0⟩

/-- Transition labels of the adapter's small-step semantics. -/
inductive ALabel
  | genStep
  | putStep
  | checkStep
  | takeStep
  | setStop
deriving DecidableEq

/-- Modelled from the spec: one transition of the streaming adapter.
The worker cycles generation step → `put` → StopFlag check; `put` requires
the capacity-1 slot to be free (a writer to a full slot blocks), the check
terminates the worker when the StopFlag is set; the consumer can `take` the
slot's item and can set the StopFlag at any time. -/
inductive AStep : AdapterState → ALabel → AdapterState → Prop
  | genStep (s : AdapterState) (h : s.phase = WPhase.gen) :
      AStep s ALabel.genStep
        { s with phase := WPhase.putting, produced := s.produced + 1 }
  | putStep (s : AdapterState) (h : s.phase = WPhase.putting)
      (hfree : s.slot = []) :
      AStep s ALabel.putStep
        { s with phase := WPhase.checking, slot := [s.produced] }
  | checkStep (s : AdapterState) (h : s.phase = WPhase.checking) :
      AStep s ALabel.checkStep
        { s with phase := if s.flag then WPhase.finished else WPhase.gen }
  | takeStep (s : AdapterState) (m : Nat) (rest : List Nat)
      (h : s.slot = m :: rest) :
      AStep s ALabel.takeStep
        { s with slot := rest, taken := s.taken + 1 }
  | setStop (s : AdapterState) :
      AStep s ALabel.setStop { s with flag := true }

/-- States of the adapter reachable from the initial state. -/
inductive AReach : AdapterState → Prop
  | init : AReach adapterInit
  | step {s l t} : AReach s → AStep s l t → AReach t

/-- A finite labelled execution of the adapter from one state to another. -/
inductive ATrace : AdapterState → List ALabel → AdapterState → Prop
  | nil (s : AdapterState) : ATrace s [] s
  | cons {s l t ls u} : AStep s l t → ATrace t ls u → ATrace s (l :: ls) u

/-!
## `get_last_checkpoint` (`chatllms/utils/model_utils.py`, lines 211-247)
-/

/-- One entry of a directory listing, as seen through `os.listdir` plus
`os.path.isdir`. -/
structure DirEntry where
  name : PyStr
  isDir : Bool
deriving DecidableEq

/-- The state of the checkpoint directory `get_last_checkpoint` inspects:
its path, whether it exists as a directory, and its entries. -/
structure CheckpointDir where
  path : PyStr
  present : Bool
  entries : List DirEntry
deriving DecidableEq

/-- The loop body of `get_last_checkpoint`: for a subdirectory whose name
starts with `'checkpoint'`, `max_step = max(max_step,
int(filename.replace('checkpoint-', '')))`; `int` raising `ValueError` is
modelled by `Except.error`. -/
def ckptFold (acc : Int) (e : DirEntry) : Except PyStr Int :=
  if e.isDir && pyStartswith "checkpoint".toList e.name then
    match pyInt (pyReplace e.name "checkpoint-".toList []) with
    | some n => Except.ok (max acc n)
    | none => Except.error "ValueError".toList
  else Except.ok acc

/-- Embedding of `get_last_checkpoint` (lines 211-247).  Returns
`Except.error` when the Python code would raise `ValueError` in `int(...)`. -/
def get_last_checkpoint (d : CheckpointDir) :
    Except PyStr (Option PyStr × Bool) :=
  if d.present then
    let is_completed := d.entries.any (fun e => e.name = "completed".toList)
    if is_completed then Except.ok (none, true)
    else
      match d.entries.foldlM ckptFold (0 : Int) with
      | Except.error msg => Except.error msg
      | Except.ok max_step =>
        if max_step = 0 then Except.ok (none, false)
        else
          Except.ok
            (some (pyJoin d.path ("checkpoint-".toList ++ (toString max_step).toList)),
             false)
  else Except.ok (none, false)

/-- The value `max_step` holds after the loop, expressed directly: the
maximum, over subdirectory entries whose name starts with `'checkpoint'`, of
the parsed suffix (with `getD 0` standing in for values that parse, as the
hypotheses of the theorems below guarantee), starting from `0`. -/
def maxCkptStep (d : CheckpointDir) : Int :=
  d.entries.foldl
    (fun acc e =>
      if e.isDir && pyStartswith "checkpoint".toList e.name then
        max acc ((pyInt (pyReplace e.name "checkpoint-".toList [])).getD 0)
      else acc)
    0

/-!
## `find_all_linear_names` (`chatllms/utils/model_utils.py`, lines 90-137)
-/

/-- The classes a module can be an instance of, as far as
`find_all_linear_names` distinguishes them. -/
inductive ModCls
  | linear4bit
  | linear8bitLt
  | torchLinear
  | otherCls
deriving DecidableEq

/-- One element of `model.named_modules()`. -/
structure NamedModule where
  name : PyStr
  cls : ModCls
deriving DecidableEq

/-- Embedding of `names[0] if len(names) == 1 else names[-1]` for
`names = name.split('.')`.  `split` on a nonempty separator never returns an
empty list, so indexing is total here; `getLast []` is unreachable and is
given a default. -/
def moduleShortName (name : PyStr) : PyStr :=
  let names := pySplit name ".".toList
  if names.length = 1 then names.headD [] else names.getLastD []

/-- Python `set.add` on an insertion-ordered duplicate-free list model of
`lora_module_names`. -/
def setAdd (s : List PyStr) (x : PyStr) : List PyStr :=
  if x ∈ s then s else s ++ [x]

/-- The loop body of `find_all_linear_names`: the `isinstance(module, cls)`
check followed by `lora_module_names.add(...)`.  When `cls` is unbound
(`cls? = none`, i.e. `args.bits` was neither 4 nor 8) the `isinstance` call
raises `NameError`, modelled by `Except.error`. -/
def linearFold (cls? : Option ModCls) (acc : List PyStr) (m : NamedModule) :
    Except PyStr (List PyStr) :=
  match cls? with
  | none => Except.error "NameError".toList
  | some c =>
    Except.ok (if m.cls = c then setAdd acc (moduleShortName m.name) else acc)

/-- Embedding of `find_all_linear_names` (lines 90-137).  When `args.bits` is
neither 4 nor 8 the `else` branch evaluates `torch.nn.Linear` without binding
`cls`, so the first `isinstance(module, cls)` check raises `NameError`
(modelled by `Except.error`); `cls?` is `none` exactly in that case. -/
def find_all_linear_names (bits : Int) (modules : List NamedModule) :
    Except PyStr (List PyStr) :=
  let cls? : Option ModCls :=
    if bits = 4 then some ModCls.linear4bit
    else if bits = 8 then some ModCls.linear8bitLt
    else none
  match modules.foldlM (linearFold cls?) ([] : List PyStr) with
  | Except.error msg => Except.error msg
  | Except.ok lora_module_names =>
    Except.ok
      (if "lm_head".toList ∈ lora_module_names then
        lora_module_names.erase "lm_head".toList
      else lora_module_names)

/-!
## Auxiliary predicates and concrete instances used by the theorems
-/

/-- Predicate: `sep` occurs nowhere in `s` as a contiguous substring (propositional
form; equivalent to `containsSub sep s = false`). -/
def noOcc (sep s : PyStr) : Prop := ∀ j, ¬ sep <+: s.drop j

/-- Predicate: `sep` has no nonempty proper prefix that is also a suffix.  Separators
without such a border admit no occurrence overlapping a known occurrence. -/
def noBorder (sep : PyStr) : Prop :=
  ∀ m, m < sep.length → 0 < m → sep.take m ≠ sep.drop (sep.length - m)

/-- Length of an optional decoded chunk (`0` for a failed extraction). -/
def optLen : Option PyStr → Nat
  | none => 0
  | some s => s.length

/-- The literal `'\n\n'` that separates template sections from the
`'### Response:'` marker. -/
def nl2 : PyStr := "\n\n".toList

/-- Cumulative step outputs of a concrete three-step streamed generation
whose third step ends with the EOS id `0`. -/
def cexSteps : List (List Nat) := [[1], [1, 2], [1, 2, 0]]

/-- A prefix-monotone decode for `cexSteps` whose second decoded output ends
with a second copy of the `'### Response:'` marker. -/
def cexDecode (o : List Nat) : PyStr :=
  if o.length = 1 then respSep ++ "##".toList
  else if o.length = 2 then respSep ++ respSep
  else respSep ++ respSep ++ "x".toList

/-- Worker-phase budget for generation steps once the StopFlag is set: a
worker at the start of a generation step may run exactly that one more step;
in any later phase of the round it runs none. -/
def genAllowance : WPhase → Nat
  | WPhase.gen => 1
  | WPhase.putting => 0
  | WPhase.checking => 0
  | WPhase.finished => 0

/-- The adapter state just after the consumer sets the StopFlag at the start
of a request. -/
def flaggedInit : AdapterState := ⟨[], true, WPhase.gen, 0, 0⟩

/-- A concrete request with top-k 0, submittable through the sliders of
`main`. -/
def cexRequest : EvalRequest :=
  { instruction := [], input := [], temperature := 1, topP := 1, topK := 0,
    numBeams := 1, maxNewTokens := 16, streamOutput := false }

/-- A request on all five sliders' grids (temperature 1, top-p 1, top-k 50,
4 beams, 112 max new tokens). -/
def wRequest : EvalRequest :=
  { instruction := [], input := [], temperature := 1, topP := 1, topK := 50,
    numBeams := 4, maxNewTokens := 112, streamOutput := false }

/-- A checkpoint directory holding `checkpoint-0` and a directory named
`checkpointx`, both of which the loop of `get_last_checkpoint` visits. -/
def cexCkptDir : CheckpointDir :=
  ⟨"output".toList, true,
   [⟨"checkpoint-0".toList, true⟩, ⟨"checkpointx".toList, true⟩]⟩

/-- A well-formed checkpoint directory with two checkpoints and a stray
file. -/
def wCkptDir : CheckpointDir :=
  ⟨"output".toList, true,
   [⟨"checkpoint-3".toList, true⟩, ⟨"checkpoint-15".toList, true⟩,
    ⟨"log.txt".toList, false⟩]⟩

/-- A concrete module list containing a quantized linear layer and the
`lm_head` layer. -/
def wModules : List NamedModule :=
  [⟨"model.layers.0.q".toList, ModCls.linear4bit⟩,
   ⟨"lm_head".toList, ModCls.linear4bit⟩]

/-- Step outputs of a concrete two-step streamed generation used as a
witness instance. -/
def wSteps : List (List Nat) := [[1], [1, 2]]

/-- A decode for `wSteps`: the response part is one `'a'` per token. -/
def wDecode (o : List Nat) : PyStr := respSep ++ List.replicate o.length 'a'


/-!
## Lemmas about substring search and splitting
-/

theorem findSub_none_noOcc {sep s : PyStr} (h : findSub sep s = none) :
    noOcc sep s := by
  induction s with
  | nil =>
    intro j hp
    simp only [List.drop_nil] at hp
    have hsep : sep = [] := List.prefix_nil.mp hp
    subst hsep
    simp [findSub] at h
  | cons c t ih =>
    rw [findSub] at h
    cases hpre : sep.isPrefixOf (c :: t) with
    | true => simp [hpre] at h
    | false =>
      rw [hpre] at h
      simp only [Bool.false_eq_true, if_false, Option.map_eq_none'] at h
      intro j hp
      cases j with
      | zero =>
        have : sep.isPrefixOf (c :: t) = true :=
          List.isPrefixOf_iff_prefix.mpr (by simpa using hp)
        simp [this] at hpre
      | succ j =>
        exact ih h j (by simpa using hp)

theorem findSub_some_of {sep s : PyStr} {i : Nat}
    (h1 : sep <+: s.drop i) (h2 : ∀ j, j < i → ¬ sep <+: s.drop j) :
    findSub sep s = some i := by
  induction s generalizing i with
  | nil =>
    have hsep : sep = [] := List.prefix_nil.mp (by simpa using h1)
    subst hsep
    have hi : i = 0 := by
      by_contra hne
      exact h2 0 (Nat.pos_of_ne_zero hne) (by simp)
    subst hi
    simp [findSub]
  | cons c t ih =>
    cases i with
    | zero =>
      have hpre : sep.isPrefixOf (c :: t) :=
        List.isPrefixOf_iff_prefix.mpr (by simpa using h1)
      simp [findSub, hpre]
    | succ j =>
      have hnpre : ¬ sep.isPrefixOf (c :: t) := by
        intro hp
        exact h2 0 (Nat.succ_pos j)
          (by simpa using List.isPrefixOf_iff_prefix.mp hp)
      have ht : findSub sep t = some j := by
        refine ih (by simpa using h1) ?_
        intro j' hj' hp
        exact h2 (j' + 1) (Nat.succ_lt_succ hj') (by simpa using hp)
      simp [findSub, hnpre, ht]

theorem findSub_some_noOcc_false {sep s : PyStr} {i : Nat}
    (h : findSub sep s = some i) : ¬ noOcc sep s := by
  intro hno
  induction s generalizing i with
  | nil =>
    rw [findSub] at h
    cases hpre : sep.isPrefixOf ([] : PyStr) with
    | true => exact hno 0 (by simpa using List.isPrefixOf_iff_prefix.mp hpre)
    | false => simp [hpre] at h
  | cons c t ih =>
    rw [findSub] at h
    cases hpre : sep.isPrefixOf (c :: t) with
    | true => exact hno 0 (by simpa using List.isPrefixOf_iff_prefix.mp hpre)
    | false =>
      rw [hpre] at h
      simp only [Bool.false_eq_true, if_false, Option.map_eq_some'] at h
      obtain ⟨j, hj, -⟩ := h
      exact ih hj (fun j' hp => hno (j' + 1) (by simpa using hp))

theorem containsSub_false_iff {sep s : PyStr} :
    containsSub sep s = false ↔ noOcc sep s := by
  constructor
  · intro h
    exact findSub_none_noOcc (by
      cases hf : findSub sep s with
      | none => rfl
      | some i => simp [containsSub, hf] at h)
  · intro h
    cases hf : findSub sep s with
    | none => simp [containsSub, hf]
    | some i => exact absurd h (findSub_some_noOcc_false hf)

theorem findSub_sandwich {sep a b : PyStr} (hnb : noBorder sep)
    (ha : noOcc sep a) :
    findSub sep (a ++ (sep ++ b)) = some a.length := by
  apply findSub_some_of
  · rw [List.drop_left]
    exact List.prefix_append sep b
  · intro j hj hp
    rw [List.drop_append_of_le_length (Nat.le_of_lt hj)] at hp
    have hu_ne : a.drop j ≠ [] := by
      intro hnil
      rw [List.drop_eq_nil_iff] at hnil
      omega
    have hu_len : 0 < (a.drop j).length := List.length_pos.mpr hu_ne
    by_cases hle : sep.length ≤ (a.drop j).length
    · -- the occurrence would fit inside `a.drop j`
      apply ha j
      have := List.prefix_iff_eq_take.mp hp
      rw [List.take_append_of_le_length hle] at this
      exact List.prefix_iff_eq_take.mpr this
    · -- the occurrence would straddle the junction: a border of `sep`
      push_neg at hle
      have htake := List.prefix_iff_eq_take.mp hp
      rw [List.take_append_eq_append_take,
        List.take_of_length_le (Nat.le_of_lt hle),
        List.take_append_of_le_length (by omega)] at htake
      -- htake : sep = a.drop j ++ sep.take (sep.length - (a.drop j).length)
      set m := sep.length - (a.drop j).length with hm
      apply hnb m (by omega) (by omega)
      have hdrop : sep.drop (a.drop j).length
          = sep.take m := by
        conv_lhs => rw [htake]
        rw [List.drop_left]
      rw [← hdrop]
      congr 1
      omega

theorem splitOnAux_of_none {sep s : PyStr} (fuel : Nat)
    (h : findSub sep s = none) : splitOnAux sep fuel s = [s] := by
  cases fuel with
  | zero => rfl
  | succ fuel => rw [splitOnAux, h]

theorem pySplit_sandwich {sep a b : PyStr} (hsep : sep ≠ [])
    (hnb : noBorder sep) (ha : noOcc sep a) (hb : noOcc sep b) :
    pySplit (a ++ sep ++ b) sep = [a, b] := by
  have hfind : findSub sep (a ++ sep ++ b) = some a.length := by
    rw [List.append_assoc]
    exact findSub_sandwich hnb ha
  have hbfind : findSub sep b = none := by
    cases hf : findSub sep b with
    | none => rfl
    | some i => exact absurd hb (findSub_some_noOcc_false hf)
  have hlen : (a ++ sep ++ b).length = (a.length + sep.length + b.length - 1) + 1 := by
    have : 0 < sep.length := List.length_pos.mpr hsep
    simp only [List.length_append]
    omega
  have htake : (a ++ sep ++ b).take a.length = a := by
    rw [List.append_assoc]
    exact List.take_left a (sep ++ b)
  have hdrop : (a ++ sep ++ b).drop (a.length + sep.length) = b := by
    rw [List.drop_left' (by rw [List.length_append])]
  rw [pySplit, hlen]
  simp only [splitOnAux, hfind]
  rw [htake, hdrop, splitOnAux_of_none _ hbfind]

theorem respSep_noBorder : noBorder respSep := by
  unfold noBorder
  decide

theorem get_response_sandwich {a b : PyStr}
    (ha : containsSub respSep a = false) (hb : containsSub respSep b = false) :
    get_response (a ++ respSep ++ b) = some (pyStrip b) := by
  rw [get_response,
    pySplit_sandwich (by decide) respSep_noBorder
      (containsSub_false_iff.mp ha) (containsSub_false_iff.mp hb)]
  rfl

theorem noOcc_append {sep x y : PyStr}
    (hx : noOcc sep x) (hy : noOcc sep y)
    (hspan : ∀ u v, sep = u ++ v → u ≠ [] → v ≠ [] → u <:+ x → v <+: y → False) :
    noOcc sep (x ++ y) := by
  intro j hp
  by_cases hj : x.length ≤ j
  · -- the occurrence lies inside `y`
    apply hy (j - x.length)
    rwa [show j = x.length + (j - x.length) by omega, List.drop_append] at hp
  · push_neg at hj
    rw [List.drop_append_of_le_length (Nat.le_of_lt hj)] at hp
    have hu_ne : x.drop j ≠ [] := by
      intro hnil
      rw [List.drop_eq_nil_iff] at hnil
      omega
    have hu_len : 0 < (x.drop j).length := List.length_pos.mpr hu_ne
    by_cases hle : sep.length ≤ (x.drop j).length
    · -- the occurrence lies inside `x`
      apply hx j
      have := List.prefix_iff_eq_take.mp hp
      rw [List.take_append_of_le_length hle] at this
      exact List.prefix_iff_eq_take.mpr this
    · -- the occurrence straddles the junction
      push_neg at hle
      have htake := List.prefix_iff_eq_take.mp hp
      rw [List.take_append_eq_append_take,
        List.take_of_length_le (Nat.le_of_lt hle)] at htake
      refine hspan (x.drop j) (y.take (sep.length - (x.drop j).length)) htake
        hu_ne ?_ (List.drop_suffix j x) ( List.take_prefix _ y)
      intro hvnil
      have hsep_len := congrArg List.length htake
      rw [List.length_append, hvnil, List.length_nil] at hsep_len
      omega

theorem noOcc_append_last {sep x y : PyStr} {c : Char}
    (hx : noOcc sep x) (hy : noOcc sep y)
    (hlast : x.getLast? = some c) (hc : c ∉ sep) : noOcc sep (x ++ y) := by
  refine noOcc_append hx hy ?_
  intro u v hsep hu hv hux hvy
  obtain ⟨w, rfl⟩ := hux
  rw [List.getLast?_append] at hlast
  obtain ⟨g, hg⟩ := Option.isSome_iff_exists.mp (List.getLast?_isSome.mpr hu)
  rw [hg, Option.or_some] at hlast
  have hgc : g = c := Option.some.inj hlast
  apply hc
  rw [← hgc]
  have hmem : g ∈ u := List.mem_of_getLast?_eq_some hg
  have hus : u <+: sep := ⟨v, hsep.symm⟩
  exact hus.subset hmem

theorem noOcc_append_head {sep x y : PyStr} {c : Char}
    (hx : noOcc sep x) (hy : noOcc sep y)
    (hhead : y.head? = some c) (hc : c ∉ sep) : noOcc sep (x ++ y) := by
  refine noOcc_append hx hy ?_
  intro u v hsep hu hv hvy hpref
  obtain ⟨w, rfl⟩ := hpref
  rw [List.head?_append] at hhead
  obtain ⟨g, hg⟩ := Option.isSome_iff_exists.mp (List.head?_isSome.mpr hv)
  rw [hg, Option.or_some] at hhead
  have hgc : g = c := Option.some.inj hhead
  apply hc
  rw [← hgc]
  have hmem : g ∈ v := by
    obtain ⟨ys, hys⟩ := List.head?_eq_some_iff.mp hg
    rw [hys]
    exact List.mem_cons_self g ys
  have hvs : v <:+ sep := ⟨u, hsep.symm⟩
  exact hvs.subset hmem

/-!
## Lemmas about `pyStrip`
-/

theorem length_dropWhile_append_ge (p : Char → Bool) (x y : List Char) :
    (y.dropWhile p).length ≤ ((x ++ y).dropWhile p).length := by
  induction x with
  | nil => exact Nat.le_refl _
  | cons c x ih =>
    rw [List.cons_append, List.dropWhile_cons]
    by_cases hp : p c
    · simpa [hp] using ih
    · simp only [hp, if_false]
      calc (y.dropWhile p).length ≤ y.length :=
            (List.dropWhile_sublist p).length_le
        _ ≤ (c :: (x ++ y)).length := by
            rw [List.length_cons, List.length_append]
            omega

theorem pyStrip_nil_of_dropWhile_nil {b : PyStr}
    (h : b.dropWhile Char.isWhitespace = []) : pyStrip b = [] := by
  rw [pyStrip, h]
  rfl

theorem length_pyStrip_le_append (b t : PyStr) :
    (pyStrip b).length ≤ (pyStrip (b ++ t)).length := by
  by_cases h : b.dropWhile Char.isWhitespace = []
  · rw [pyStrip_nil_of_dropWhile_nil h]
    exact Nat.zero_le _
  · have hdw : (b ++ t).dropWhile Char.isWhitespace
        = b.dropWhile Char.isWhitespace ++ t := by
      rw [List.dropWhile_append]
      simp [h]
    rw [pyStrip, pyStrip, hdw, List.length_reverse, List.length_reverse,
      List.reverse_append]
    exact length_dropWhile_append_ge Char.isWhitespace t.reverse
      (b.dropWhile Char.isWhitespace).reverse

/-!
## Structure of generated prompts
-/

theorem noOcc_of_containsSub {s : PyStr} (h : containsSub respSep s = false) :
    noOcc respSep s := containsSub_false_iff.mp h

theorem generate_prompt_decompose (d : PromptDict)
    (instruction input response : PyStr) (hresp : response ≠ [])
    (hi : containsSub respSep instruction = false)
    (hin : containsSub respSep input = false) :
    ∃ a, generate_prompt d instruction (some input) (some response)
        = a ++ respSep ++ response ∧ noOcc respSep a := by
  have hne : response.isEmpty = false := by
    cases response with
    | nil => exact absurd rfl hresp
    | cons c t => rfl
  have hnl2 : noOcc respSep nl2 := noOcc_of_containsSub (by decide)
  cases d with
  | defaultDict =>
    refine ⟨instruction ++ nl2, ?_, ?_⟩
    · rw [generate_prompt]
      simp only [hne, Bool.false_eq_true, if_false]
      show instruction ++ promptTail ++ response = _
      rw [show promptTail = nl2 ++ respSep by decide]
      simp [List.append_assoc]
    · exact noOcc_append_head (c := '\n') (noOcc_of_containsSub hi) hnl2
        rfl (by decide)
  | alpacaDict =>
    have hmid : noOcc respSep alpacaInputMid := noOcc_of_containsSub (by decide)
    have hhdr : noOcc respSep alpacaInputHeader :=
      noOcc_of_containsSub (by decide)
    have n1 : noOcc respSep (input ++ nl2) :=
      noOcc_append_head (c := '\n') (noOcc_of_containsSub hin) hnl2
        rfl (by decide)
    have n2 : noOcc respSep (alpacaInputMid ++ (input ++ nl2)) :=
      noOcc_append_last (c := '\n') hmid n1 (by decide) (by decide)
    have n3 : noOcc respSep
        (instruction ++ (alpacaInputMid ++ (input ++ nl2))) := by
      refine noOcc_append_head (c := '\n') (noOcc_of_containsSub hi) n2 ?_
        (by decide)
      rw [List.head?_append, show alpacaInputMid.head? = some '\n' by decide,
        Option.or_some]
    have n4 : noOcc respSep
        (alpacaInputHeader ++ (instruction ++ (alpacaInputMid ++ (input ++ nl2)))) :=
      noOcc_append_last (c := '\n') hhdr n3 (by decide) (by decide)
    refine ⟨alpacaInputHeader ++ (instruction ++ (alpacaInputMid ++ (input ++ nl2))),
      ?_, n4⟩
    rw [generate_prompt]
    simp only [hne, Bool.false_eq_true, if_false]
    show alpacaInputHeader ++ instruction ++ alpacaInputMid ++ input ++ promptTail
        ++ response = _
    rw [show promptTail = nl2 ++ respSep by decide]
    simp [List.append_assoc]

theorem consumeLoop_eq_map (decode : List Nat → PyStr) (eos : Nat)
    (steps : List (List Nat))
    (hnoeos : ∀ o ∈ steps, o.getLast? ≠ some eos) :
    consumeLoop decode eos steps
      = steps.map (fun o => get_response (decode o)) := by
  induction steps with
  | nil => rfl
  | cons o rest ih =>
    have hno : o.getLast? ≠ some eos := hnoeos o (List.mem_cons_self o rest)
    simp only [consumeLoop, List.map_cons]
    rw [if_neg hno]
    exact congrArg _ (ih fun p hp => hnoeos p (List.mem_cons_of_mem _ hp))

/-- C8: For every instruction, input and non-empty response string, none of
which contain the substring `'### Response:'`,
`Prompter.get_response(Prompter.generate_prompt(instruction, input,
response))` equals `response.strip()`; in particular `generate_prompt`
produces text containing exactly one `'### Response:'` separator (the split
has exactly two parts), so `get_response` never fails on it.  Holds for both
template dictionaries. -/
theorem C8_prompter_roundtrip (d : PromptDict)
    (instruction input response : PyStr) (hresp : response ≠ [])
    (hi : containsSub respSep instruction = false)
    (hin : containsSub respSep input = false)
    (hr : containsSub respSep response = false) :
    (pySplit (generate_prompt d instruction (some input) (some response))
        respSep).length = 2 ∧
    get_response (generate_prompt d instruction (some input) (some response))
      = some (pyStrip response) := by
  obtain ⟨a, heq, ha⟩ :=
    generate_prompt_decompose d instruction input response hresp hi hin
  have hsplit : pySplit
      (generate_prompt d instruction (some input) (some response)) respSep
      = [a, response] := by
    rw [heq]
    exact pySplit_sandwich (by decide) respSep_noBorder ha
      (noOcc_of_containsSub hr)
  constructor
  · rw [hsplit]
    rfl
  · rw [get_response, hsplit]
    rfl

theorem C8_prompter_roundtrip_witness :
    (" hi there ".toList : PyStr) ≠ [] ∧
    containsSub respSep "abc".toList = false ∧
    containsSub respSep "xy".toList = false ∧
    containsSub respSep " hi there ".toList = false ∧
    get_response (generate_prompt PromptDict.defaultDict "abc".toList
        (some "xy".toList) (some " hi there ".toList))
      = some ("hi there".toList) :=
  ⟨by decide, by decide, by decide, by decide, by
    have h := (C8_prompter_roundtrip PromptDict.defaultDict "abc".toList
      "xy".toList " hi there ".toList (by decide) (by decide) (by decide)
      (by decide)).2
    rw [h]
    rfl⟩

/-- C1 (amended): for every streamed generation whose step outputs are
cumulative (each decoded output extends the previous one) and none of whose
step outputs ends with the EOS token id, the consumer loop in `evaluate`
yields exactly N decoded chunks, one per generation step, in exactly the
order the steps were produced; and provided each decoded output consists of
a fixed prompt part, one `'### Response:'` separator and a response part
containing no further separator, each chunk's decoded length is greater than
or equal to the previous chunk's decoded length. -/
theorem C1_stream_chunks (decode : List Nat → PyStr) (eos : Nat)
    (steps : List (List Nat)) (A : PyStr)
    (hA : containsSub respSep A = false)
    (hshape : ∀ o ∈ steps, ∃ b, decode o = A ++ respSep ++ b ∧
      containsSub respSep b = false)
    (hmono : ∀ i a b, steps[i]? = some a → steps[i + 1]? = some b →
      decode a <+: decode b)
    (hnoeos : ∀ o ∈ steps, o.getLast? ≠ some eos) :
    consumeLoop decode eos steps
        = steps.map (fun o => get_response (decode o)) ∧
    (∀ i c₁ c₂, (consumeLoop decode eos steps)[i]? = some c₁ →
      (consumeLoop decode eos steps)[i + 1]? = some c₂ →
      optLen c₁ ≤ optLen c₂) := by
  have h1 := consumeLoop_eq_map decode eos steps hnoeos
  refine ⟨h1, ?_⟩
  intro i c₁ c₂ hc₁ hc₂
  rw [h1, List.getElem?_map] at hc₁ hc₂
  obtain ⟨a₁, ha₁, rfl⟩ := Option.map_eq_some'.mp hc₁
  obtain ⟨a₂, ha₂, rfl⟩ := Option.map_eq_some'.mp hc₂
  obtain ⟨b₁, hb₁, hbn₁⟩ := hshape a₁ (List.getElem?_mem ha₁)
  obtain ⟨b₂, hb₂, hbn₂⟩ := hshape a₂ (List.getElem?_mem ha₂)
  have hpre : decode a₁ <+: decode a₂ := hmono i a₁ a₂ ha₁ ha₂
  rw [hb₁, hb₂, List.append_assoc, List.append_assoc] at hpre
  have hb : b₁ <+: b₂ :=
    ( List.prefix_append_right_inj respSep).mp
      (( List.prefix_append_right_inj A).mp hpre)
  obtain ⟨t, rfl⟩ := hb
  have g₁ : get_response (decode a₁) = some (pyStrip b₁) := by
    rw [hb₁]
    exact get_response_sandwich hA hbn₁
  have g₂ : get_response (decode a₂) = some (pyStrip (b₁ ++ t)) := by
    rw [hb₂]
    exact get_response_sandwich hA hbn₂
  simp only [g₁, g₂, optLen]
  exact length_pyStrip_le_append b₁ t

/-- C1, counterexample to the claim as stated: for the three cumulative step
outputs `cexSteps` with EOS id `0` and the prefix-monotone decode
`cexDecode`, the consumer loop yields 2 chunks instead of 3 (the loop breaks
on the EOS-ending step before yielding), and the second chunk is strictly
shorter than the first (the second decoded output contains a second
`'### Response:'` occurrence). -/
theorem C1_stream_chunks_cex :
    (consumeLoop cexDecode 0 cexSteps).length ≠ cexSteps.length ∧
    (consumeLoop cexDecode 0 cexSteps)[0]? = some (some "##".toList) ∧
    (consumeLoop cexDecode 0 cexSteps)[1]? = some (some []) ∧
    optLen (some ([] : PyStr)) < optLen (some "##".toList) := by
  refine ⟨?_, ?_, ?_, ?_⟩ <;> decide

theorem C1_stream_chunks_witness :
    consumeLoop wDecode 0 wSteps = [some "a".toList, some "aa".toList] ∧
    optLen (some "a".toList) ≤ optLen (some "aa".toList) := by
  have h := C1_stream_chunks wDecode 0 wSteps []
    (by decide)
    (by
      intro o ho
      refine ⟨List.replicate o.length 'a', ?_, ?_⟩
      · rfl
      · fin_cases ho <;> decide)
    (by
      intro i a b ha hb
      have hi : i = 0 := by
        by_contra hne
        have : i + 1 ≥ 2 := by omega
        have : wSteps[i + 1]? = none := by
          apply List.getElem?_eq_none
          simpa [wSteps] using this
        rw [this] at hb
        exact Option.noConfusion hb
      subst hi
      have ha0 : a = [1] := by
        have : wSteps[0]? = some [1] := by decide
        rw [this] at ha
        exact (Option.some.inj ha).symm
      have hb0 : b = [1, 2] := by
        have : wSteps[1]? = some [1, 2] := by decide
        rw [this] at hb
        exact (Option.some.inj hb).symm
      subst ha0
      subst hb0
      decide)
    (by decide)
  refine ⟨h.1.trans (by decide), ?_⟩
  exact h.2 0 (some "a".toList) (some "aa".toList) (by decide) (by decide)

/-- C2: the streaming adapter is used if and only if `stream_output` is
true: the count of `Iteratorize` creations is 1 when `stream_output` is true
and 0 when false; and with `stream_output = false`, `evaluate` performs
exactly one synchronous `model.generate` call (its only event) and yields
exactly the single final response. -/
theorem C2_stream_output_branch (mdl : ModelBeh) (decode : List Nat → PyStr)
    (eos : Nat) (inputIds : List Nat) (maxNewTokens : Nat) (so : Bool) :
    ((evaluateRun mdl decode eos inputIds maxNewTokens so).1.count
        EvEvent.createIteratorize = if so then 1 else 0) ∧
    (evaluateRun mdl decode eos inputIds maxNewTokens false).1
      = [EvEvent.modelGenerateCall] ∧
    (evaluateRun mdl decode eos inputIds maxNewTokens false).2
      = [get_response (decode mdl.final)] := by
  refine ⟨?_, rfl, rfl⟩
  cases so <;> rfl

/-- C3: `generate_with_callback` invokes the model's blocking `generate`
exactly once (the call list is a singleton), passing the callback as exactly
one `Stream` entry appended to the `stopping_criteria` list; appending
raises the `Stream`-entry count by exactly one; and on the
`generate_params` built by `evaluate` (which carry no `stopping_criteria`)
the resulting hook list is exactly `[Stream(callback)]`. -/
theorem C3_generate_with_callback (cb : Nat) (kwargs : GenKwargs)
    (inputIds : List Nat) (maxNewTokens : Nat) :
    (generate_with_callback cb kwargs).length = 1 ∧
    ((generate_with_callback cb kwargs).map
        (fun c => c.params.stoppingCriteria))
      = [some (kwargs.stoppingCriteria.getD [] ++ [Criterion.stream cb])] ∧
    (kwargs.stoppingCriteria.getD []
        ++ [Criterion.stream cb]).count (Criterion.stream cb)
      = (kwargs.stoppingCriteria.getD []).count (Criterion.stream cb) + 1 ∧
    generate_with_callback cb (evaluateGenParams inputIds maxNewTokens)
      = [⟨{ evaluateGenParams inputIds maxNewTokens with
            stoppingCriteria := some [Criterion.stream cb] }⟩] := by
  refine ⟨rfl, rfl, ?_, rfl⟩
  rw [List.count_append]
  simp

/-- C4, counterexample to the claim as stated: the request with top-k 0
(temperature 1, top-p 1, 1 beam, 16 max new tokens) is submittable through
the input components of `main` — the Top k slider has `minimum=0` — but
violates the spec bound "top-k integer ≥ 1". -/
theorem C4_param_bounds_cex :
    submittable cexRequest ∧ ¬ specParamBounds cexRequest := by
  constructor
  · refine ⟨⟨?_, ?_, fun st hst => ?_⟩, ⟨?_, ?_, fun st hst => ?_⟩,
      ⟨?_, ?_, fun st hst => ?_⟩, ⟨?_, ?_, fun st hst => ?_⟩,
      ⟨?_, ?_, fun st hst => ?_⟩⟩
    · norm_num [temperatureSlider, cexRequest]
    · norm_num [temperatureSlider, cexRequest]
    · exact absurd hst (by simp [temperatureSlider])
    · norm_num [topPSlider, cexRequest]
    · norm_num [topPSlider, cexRequest]
    · exact absurd hst (by simp [topPSlider])
    · norm_num [topKSlider, cexRequest]
    · norm_num [topKSlider, cexRequest]
    · rw [show topKSlider.step = some 1 from rfl] at hst
      obtain rfl : (1 : ℚ) = st := Option.some.inj hst
      exact ⟨0, by norm_num [topKSlider, cexRequest]⟩
    · norm_num [beamsSlider, cexRequest]
    · norm_num [beamsSlider, cexRequest]
    · rw [show beamsSlider.step = some 1 from rfl] at hst
      obtain rfl : (1 : ℚ) = st := Option.some.inj hst
      exact ⟨0, by norm_num [beamsSlider, cexRequest]⟩
    · norm_num [maxNewTokensSlider, cexRequest]
    · norm_num [maxNewTokensSlider, cexRequest]
    · rw [show maxNewTokensSlider.step = some 32 from rfl] at hst
      obtain rfl : (32 : ℚ) = st := Option.some.inj hst
      exact ⟨0, by norm_num [maxNewTokensSlider, cexRequest]⟩
  · intro h
    obtain ⟨-, -, ⟨n, hn, h1⟩, -, -⟩ := h
    rw [show cexRequest.topK = 0 from rfl] at hn
    have hn0 : n = 0 := by exact_mod_cast hn.symm
    omega

/-- C4 (amended): every request the web layer can submit through the input
components of `main` satisfies: temperature ∈ [0,1], top-p ∈ [0,1], top-k an
integer ≥ 0 (the Top k slider allows 0), beam count an integer ≥ 1, and
max-new-tokens an integer. -/
theorem C4_param_bounds (r : EvalRequest) (h : submittable r) :
    (0 ≤ r.temperature ∧ r.temperature ≤ 1) ∧
    (0 ≤ r.topP ∧ r.topP ≤ 1) ∧
    (∃ n : ℤ, r.topK = (n : ℚ) ∧ 0 ≤ n) ∧
    (∃ n : ℤ, r.numBeams = (n : ℚ) ∧ 1 ≤ n) ∧
    (∃ n : ℤ, r.maxNewTokens = (n : ℚ)) := by
  obtain ⟨⟨ht1, ht2, -⟩, ⟨hp1, hp2, -⟩, ⟨hk1, hk2, hk3⟩,
    ⟨hb1, hb2, hb3⟩, ⟨hm1, hm2, hm3⟩⟩ := h
  obtain ⟨k, hk⟩ := hk3 1 rfl
  obtain ⟨kb, hb⟩ := hb3 1 rfl
  obtain ⟨km, hm⟩ := hm3 32 rfl
  simp only [temperatureSlider] at ht1 ht2
  simp only [topPSlider] at hp1 hp2
  simp only [topKSlider] at hk
  simp only [beamsSlider] at hb
  simp only [maxNewTokensSlider] at hm
  refine ⟨⟨ht1, ht2⟩, ⟨hp1, hp2⟩, ⟨(k : ℤ), ?_, ?_⟩,
    ⟨(kb : ℤ) + 1, ?_, ?_⟩, ⟨32 * (km : ℤ) + 16, ?_⟩⟩
  · rw [hk]
    push_cast
    ring
  · exact Int.ofNat_nonneg k
  · rw [hb]
    push_cast
    ring
  · omega
  · rw [hm]
    push_cast
    ring

theorem C4_param_bounds_witness :
    submittable wRequest ∧
    (0 ≤ wRequest.temperature ∧ wRequest.temperature ≤ 1) ∧
    (0 ≤ wRequest.topP ∧ wRequest.topP ≤ 1) ∧
    (∃ n : ℤ, wRequest.topK = (n : ℚ) ∧ 0 ≤ n) ∧
    (∃ n : ℤ, wRequest.numBeams = (n : ℚ) ∧ 1 ≤ n) ∧
    (∃ n : ℤ, wRequest.maxNewTokens = (n : ℚ)) := by
  have hsub : submittable wRequest := by
    refine ⟨⟨?_, ?_, fun st hst => ?_⟩, ⟨?_, ?_, fun st hst => ?_⟩,
      ⟨?_, ?_, fun st hst => ?_⟩, ⟨?_, ?_, fun st hst => ?_⟩,
      ⟨?_, ?_, fun st hst => ?_⟩⟩
    · norm_num [temperatureSlider, wRequest]
    · norm_num [temperatureSlider, wRequest]
    · exact absurd hst (by simp [temperatureSlider])
    · norm_num [topPSlider, wRequest]
    · norm_num [topPSlider, wRequest]
    · exact absurd hst (by simp [topPSlider])
    · norm_num [topKSlider, wRequest]
    · norm_num [topKSlider, wRequest]
    · rw [show topKSlider.step = some 1 from rfl] at hst
      obtain rfl : (1 : ℚ) = st := Option.some.inj hst
      exact ⟨50, by norm_num [topKSlider, wRequest]⟩
    · norm_num [beamsSlider, wRequest]
    · norm_num [beamsSlider, wRequest]
    · rw [show beamsSlider.step = some 1 from rfl] at hst
      obtain rfl : (1 : ℚ) = st := Option.some.inj hst
      exact ⟨3, by norm_num [beamsSlider, wRequest]⟩
    · norm_num [maxNewTokensSlider, wRequest]
    · norm_num [maxNewTokensSlider, wRequest]
    · rw [show maxNewTokensSlider.step = some 32 from rfl] at hst
      obtain rfl : (32 : ℚ) = st := Option.some.inj hst
      exact ⟨(3 : ℕ), by norm_num [maxNewTokensSlider, wRequest]⟩
  exact ⟨hsub, C4_param_bounds wRequest hsub⟩

/-- C5: if the blocking generation call raises exception `e` after `k`
steps, the Consumer Iteration Wrapper observes exactly those `k` step
outputs, in order, and then re-raises that same exception — the failure is
never silently dropped (the terminal component is `some e`, not `none`). -/
theorem C5_exception_propagation (steps : List (List Nat)) (e : Nat) :
    consumeMsgs (workerMsgs steps (some e)) = (steps, some e) := by
  induction steps with
  | nil => rfl
  | cons o rest ih =>
    show consumeMsgs (GenMsg.step o :: workerMsgs rest (some e)) = _
    rw [consumeMsgs, ih]

theorem adapter_invariant {s : AdapterState} (h : AReach s) :
    s.slot.length ≤ 1 ∧
    s.produced = s.taken + s.slot.length
      + (if s.phase = WPhase.putting then 1 else 0) := by
  induction h with
  | init => simp [adapterInit]
  | @step u l t hr hs ih =>
    obtain ⟨ih1, ih2⟩ := ih
    cases hs with
    | genStep hphase =>
      rw [hphase] at ih2
      refine ⟨ih1, ?_⟩
      show u.produced + 1 = u.taken + u.slot.length
        + (if WPhase.putting = WPhase.putting then 1 else 0)
      rw [if_pos rfl]
      rw [if_neg (by decide)] at ih2
      omega
    | putStep hphase hfree =>
      rw [hphase] at ih2
      rw [if_pos rfl] at ih2
      rw [hfree, List.length_nil] at ih2
      constructor
      · show ([u.produced] : List Nat).length ≤ 1
        rw [List.length_singleton]
      · show u.produced = u.taken + ([u.produced] : List Nat).length
          + (if WPhase.checking = WPhase.putting then 1 else 0)
        rw [if_neg (by decide), List.length_singleton]
        omega
    | checkStep hphase =>
      rw [hphase] at ih2
      rw [if_neg (by decide)] at ih2
      refine ⟨ih1, ?_⟩
      show u.produced = u.taken + u.slot.length
        + (if (if u.flag then WPhase.finished else WPhase.gen)
            = WPhase.putting then 1 else 0)
      cases hflag : u.flag with
      | true =>
        rw [if_pos rfl, if_neg (by decide)]
        omega
      | false =>
        rw [show (if (false = true) then WPhase.finished else WPhase.gen)
            = WPhase.gen from rfl, if_neg (by decide)]
        omega
    | takeStep m rest hslot =>
      rw [hslot, List.length_cons] at ih1 ih2
      have hrest : rest.length = 0 := by omega
      constructor
      · show rest.length ≤ 1
        omega
      · show u.produced = u.taken + 1 + rest.length
          + (if u.phase = WPhase.putting then 1 else 0)
        omega
    | setStop =>
      exact ⟨ih1, ih2⟩

/-- C6: the handoff channel has capacity exactly one — in every reachable
adapter state at most one unread StepOutput occupies the slot — and a `put`
can complete (is enabled and fires) only when all previously produced step
outputs have been taken: the `put` publishing step `produced` finds
`taken + 1 = produced`, i.e. step `k+1` is put only after step `k` was
taken. -/
theorem C6_channel_capacity (s : AdapterState) (h : AReach s) :
    s.slot.length ≤ 1 ∧
    (∀ t, AStep s ALabel.putStep t →
      t.slot = [s.produced] ∧ s.taken + 1 = s.produced) := by
  obtain ⟨h1, h2⟩ := adapter_invariant h
  refine ⟨h1, ?_⟩
  intro t ht
  cases ht with
  | putStep hphase hfree =>
    refine ⟨rfl, ?_⟩
    rw [hphase, if_pos rfl, hfree, List.length_nil] at h2
    omega

theorem C6_channel_capacity_witness :
    adapterInit.slot.length ≤ 1 :=
  (C6_channel_capacity adapterInit AReach.init).1

theorem flag_preserved {s t : AdapterState} {l : ALabel}
    (hs : AStep s l t) (hf : s.flag = true) : t.flag = true := by
  cases hs with
  | genStep hphase => exact hf
  | putStep hphase hfree => exact hf
  | checkStep hphase => exact hf
  | takeStep m rest hslot => exact hf
  | setStop => rfl

theorem gen_count_bound {s : AdapterState} {ls : List ALabel}
    {t : AdapterState} (htr : ATrace s ls t) : s.flag = true →
    ls.count ALabel.genStep + genAllowance t.phase
      ≤ genAllowance s.phase := by
  induction htr with
  | nil u =>
    intro hf
    simp
  | @cons s' l u ls' t' hstep htr' ih =>
    intro hflag
    have h2 := ih (flag_preserved hstep hflag)
    rw [List.count_cons]
    cases hstep with
    | genStep hphase =>
      have h3 : ls'.count ALabel.genStep + genAllowance t'.phase ≤ 0 := h2
      rw [hphase]
      show ls'.count ALabel.genStep + 1 + genAllowance t'.phase ≤ 1
      omega
    | putStep hphase hfree =>
      have h3 : ls'.count ALabel.genStep + genAllowance t'.phase ≤ 0 := h2
      rw [hphase]
      show ls'.count ALabel.genStep + 0 + genAllowance t'.phase ≤ 0
      omega
    | checkStep hphase =>
      have h3 : ls'.count ALabel.genStep + genAllowance t'.phase ≤ 0 := by
        have hif : (if s'.flag = true then WPhase.finished else WPhase.gen)
            = WPhase.finished := if_pos hflag
        calc ls'.count ALabel.genStep + genAllowance t'.phase
            ≤ genAllowance (if s'.flag = true then WPhase.finished
                else WPhase.gen) := h2
          _ = 0 := by rw [hif]; rfl
      rw [hphase]
      show ls'.count ALabel.genStep + 0 + genAllowance t'.phase ≤ 0
      omega
    | takeStep m rest hslot =>
      have h3 : ls'.count ALabel.genStep + genAllowance t'.phase
          ≤ genAllowance s'.phase := h2
      show ls'.count ALabel.genStep + 0 + genAllowance t'.phase
        ≤ genAllowance s'.phase
      omega
    | setStop =>
      have h3 : ls'.count ALabel.genStep + genAllowance t'.phase
          ≤ genAllowance s'.phase := h2
      show ls'.count ALabel.genStep + 0 + genAllowance t'.phase
        ≤ genAllowance s'.phase
      omega

theorem finish_from_putting (u : AdapterState)
    (hphase : u.phase = WPhase.putting) (hflag : u.flag = true)
    (hslot : u.slot.length ≤ 1) :
    ∃ ls t, ATrace u ls t ∧ t.phase = WPhase.finished := by
  cases hsl : u.slot with
  | nil =>
    refine ⟨[ALabel.putStep, ALabel.checkStep], _,
      ATrace.cons (AStep.putStep u hphase hsl)
        (ATrace.cons (AStep.checkStep _ rfl) (ATrace.nil _)), ?_⟩
    simp [hflag]
  | cons m rest =>
    have hrest : rest = [] := by
      rw [hsl, List.length_cons] at hslot
      cases rest with
      | nil => rfl
      | cons a b => simp at hslot
    subst hrest
    refine ⟨[ALabel.takeStep, ALabel.putStep, ALabel.checkStep], _,
      ATrace.cons (AStep.takeStep u m [] hsl)
        (ATrace.cons (AStep.putStep _ hphase rfl)
          (ATrace.cons (AStep.checkStep _ rfl) (ATrace.nil _))), ?_⟩
    simp [hflag]

/-- C7: cancellation is cooperative — from any reachable adapter state in
which the StopFlag has been set, every further execution performs at most
one more generation step, and there is an execution (the consumer draining
the slot as needed) after which the worker lane has terminated
(`phase = finished`), so no `put` is left blocked forever. -/
theorem C7_cooperative_cancellation (s : AdapterState) (hreach : AReach s)
    (hflag : s.flag = true) :
    (∀ ls t, ATrace s ls t → ls.count ALabel.genStep ≤ 1) ∧
    (∃ ls t, ATrace s ls t ∧ t.phase = WPhase.finished) := by
  have hslot : s.slot.length ≤ 1 := (adapter_invariant hreach).1
  constructor
  · intro ls t htr
    have h := gen_count_bound htr hflag
    have hb : genAllowance s.phase ≤ 1 := by
      cases hp : s.phase <;> simp [genAllowance]
    omega
  · cases hp : s.phase with
    | gen =>
      obtain ⟨ls', t, htr, ht⟩ := finish_from_putting
        { s with phase := WPhase.putting, produced := s.produced + 1 }
        rfl hflag hslot
      exact ⟨ALabel.genStep :: ls', t,
        ATrace.cons (AStep.genStep s hp) htr, ht⟩
    | putting =>
      exact finish_from_putting s hp hflag hslot
    | checking =>
      refine ⟨[ALabel.checkStep], _,
        ATrace.cons (AStep.checkStep s hp) (ATrace.nil _), ?_⟩
      simp [hflag]
    | finished =>
      exact ⟨[], s, ATrace.nil s, hp⟩

theorem C7_cooperative_cancellation_witness :
    ∃ ls t, ATrace flaggedInit ls t ∧ t.phase = WPhase.finished :=
  (C7_cooperative_cancellation flaggedInit
    (AReach.step AReach.init (AStep.setStop adapterInit)) rfl).2

/-!
## `get_last_checkpoint`: loop characterization and claim
-/

theorem ckptFold_ok (entries : List DirEntry)
    (h : ∀ e ∈ entries, e.isDir = true →
      pyStartswith "checkpoint".toList e.name = true →
      (pyInt (pyReplace e.name "checkpoint-".toList [])).isSome = true) :
    ∀ acc : Int, entries.foldlM ckptFold acc
      = Except.ok (entries.foldl
        (fun acc e =>
          if e.isDir && pyStartswith "checkpoint".toList e.name then
            max acc ((pyInt (pyReplace e.name "checkpoint-".toList [])).getD 0)
          else acc)
        acc) := by
  induction entries with
  | nil => intro acc; rfl
  | cons e rest ih =>
    intro acc
    have hstep : ckptFold acc e
        = Except.ok (if e.isDir && pyStartswith "checkpoint".toList e.name then
            max acc ((pyInt (pyReplace e.name "checkpoint-".toList [])).getD 0)
          else acc) := by
      cases hcond : (e.isDir && pyStartswith "checkpoint".toList e.name) with
      | false =>
        have hneg : ¬((e.isDir
            && pyStartswith "checkpoint".toList e.name) = true) := by
          rw [hcond]
          exact Bool.false_ne_true
        rw [ckptFold, if_neg hneg]
        rfl
      | true =>
        obtain ⟨hdir, hsw⟩ := Bool.and_eq_true_iff.mp hcond
        obtain ⟨n, hn⟩ := Option.isSome_iff_exists.mp
          (h e (List.mem_cons_self e rest) hdir hsw)
        rw [ckptFold, if_pos hcond, hn]
        rfl
    rw [List.foldlM_cons, List.foldl_cons, hstep]
    have hbind : ((Except.ok (if e.isDir
          && pyStartswith "checkpoint".toList e.name then
            max acc ((pyInt (pyReplace e.name "checkpoint-".toList [])).getD 0)
          else acc) : Except PyStr Int) >>=
        fun acc2 => rest.foldlM ckptFold acc2)
        = rest.foldlM ckptFold (if e.isDir
          && pyStartswith "checkpoint".toList e.name then
            max acc ((pyInt (pyReplace e.name "checkpoint-".toList [])).getD 0)
          else acc) := rfl
    rw [hbind]
    exact ih (fun e2 he2 => h e2 (List.mem_cons_of_mem _ he2)) _

/-- C9 (amended): `get_last_checkpoint` returns `(None, False)` when the
directory does not exist; `(None, True)` when it exists and contains an
entry named `completed`; and, when it exists, has no `completed` entry, and
every subdirectory entry whose name starts with `checkpoint` has a name
whose `'checkpoint-'`-free residue parses as an integer, it returns
`(join(dir, 'checkpoint-<m>'), False)` where `m` is the largest parsed value
— provided `m ≠ 0`; when the largest parsed value is 0 (for instance when
the only checkpoint is `checkpoint-0`) it returns `(None, False)` instead. -/
theorem C9_get_last_checkpoint (d : CheckpointDir) :
    (d.present = false → get_last_checkpoint d = Except.ok (none, false)) ∧
    (d.present = true →
      (∃ e ∈ d.entries, e.name = "completed".toList) →
      get_last_checkpoint d = Except.ok (none, true)) ∧
    (d.present = true →
      (∀ e ∈ d.entries, e.name ≠ "completed".toList) →
      (∀ e ∈ d.entries, e.isDir = true →
        pyStartswith "checkpoint".toList e.name = true →
        (pyInt (pyReplace e.name "checkpoint-".toList [])).isSome = true) →
      get_last_checkpoint d
        = Except.ok (if maxCkptStep d = 0 then (none, false)
            else (some (pyJoin d.path ("checkpoint-".toList
              ++ (toString (maxCkptStep d)).toList)), false))) := by
  refine ⟨?_, ?_, ?_⟩
  · intro hpres
    rw [get_last_checkpoint, if_neg (by rw [hpres]; exact Bool.false_ne_true)]
  · intro hpres hcomp
    have hany : d.entries.any (fun e => e.name = "completed".toList)
        = true := by
      rw [List.any_eq_true]
      obtain ⟨e, he, hname⟩ := hcomp
      exact ⟨e, he, by simpa using hname⟩
    rw [get_last_checkpoint, if_pos hpres, if_pos hany]
  · intro hpres hnc hparse
    have hany : d.entries.any (fun e => e.name = "completed".toList)
        = false := by
      rw [List.any_eq_false]
      intro e he
      simpa using hnc e he
    have hnegany : ¬((d.entries.any
        (fun e => e.name = "completed".toList)) = true) := by
      rw [hany]
      exact Bool.false_ne_true
    rw [get_last_checkpoint, if_pos hpres, if_neg hnegany]
    rw [ckptFold_ok d.entries hparse 0]
    have hMe : d.entries.foldl
        (fun acc e =>
          if e.isDir && pyStartswith "checkpoint".toList e.name then
            max acc
              ((pyInt (pyReplace e.name "checkpoint-".toList [])).getD 0)
          else acc) 0 = maxCkptStep d := rfl
    rw [hMe]
    by_cases hM : maxCkptStep d = 0
    · rw [if_pos hM]
      exact if_pos hM
    · rw [if_neg hM]
      exact if_neg hM

/-- C9, counterexample to the claim as stated: `cexCkptDir` exists, has no
`completed` file, and its single entry matching `checkpoint-*`
(`checkpoint-0`) is a subdirectory with integer suffix 0, so the claim
predicts the result `(join(dir, 'checkpoint-0'), False)`; but the code
raises `ValueError` — the sibling directory `checkpointx` passes the
`startswith('checkpoint')` test and `int('checkpointx')` fails — and even
without that entry `max_step == 0` would make the code return
`(None, False)` rather than the predicted path. -/
theorem C9_get_last_checkpoint_cex :
    cexCkptDir.present = true ∧
    (∀ e ∈ cexCkptDir.entries, e.name ≠ "completed".toList) ∧
    (∀ e ∈ cexCkptDir.entries,
      pyStartswith "checkpoint-".toList e.name = true →
      e.isDir = true ∧
        ∃ n : Int, e.name = "checkpoint-".toList ++ (toString n).toList) ∧
    get_last_checkpoint cexCkptDir = Except.error "ValueError".toList ∧
    get_last_checkpoint cexCkptDir
      ≠ Except.ok (some (pyJoin cexCkptDir.path "checkpoint-0".toList),
          false) := by
  refine ⟨rfl, by decide, ?_, by rfl, ?_⟩
  · intro e he hsw
    fin_cases he
    · exact ⟨rfl, 0, by rfl⟩
    · exact absurd hsw (by decide)
  · intro hcontra
    rw [show get_last_checkpoint cexCkptDir
        = Except.error "ValueError".toList from rfl] at hcontra
    exact Except.noConfusion hcontra

theorem C9_get_last_checkpoint_witness :
    wCkptDir.present = true ∧
    (∀ e ∈ wCkptDir.entries, e.name ≠ "completed".toList) ∧
    get_last_checkpoint wCkptDir
      = Except.ok (some "output/checkpoint-15".toList, false) := by
  refine ⟨rfl, by decide, ?_⟩
  have h := (C9_get_last_checkpoint wCkptDir).2.2 rfl (by decide) (by decide)
  rw [h]
  rfl

/-!
## `find_all_linear_names`: loop characterization and claim
-/

theorem setAdd_nodup {s : List PyStr} {x : PyStr} (h : s.Nodup) :
    (setAdd s x).Nodup := by
  rw [setAdd]
  by_cases hx : x ∈ s
  · rw [if_pos hx]
    exact h
  · rw [if_neg hx]
    refine List.Nodup.append h (List.nodup_singleton x) ?_
    intro a ha hb
    rw [List.mem_singleton] at hb
    subst hb
    exact hx ha

theorem linearFold_ok (c : ModCls) (modules : List NamedModule) :
    ∀ acc : List PyStr, acc.Nodup →
      ∃ names, modules.foldlM (linearFold (some c)) acc = Except.ok names ∧
        names.Nodup := by
  induction modules with
  | nil =>
    intro acc h
    exact ⟨acc, rfl, h⟩
  | cons m rest ih =>
    intro acc h
    have hacc2 : (if m.cls = c then setAdd acc (moduleShortName m.name)
        else acc).Nodup := by
      by_cases hc : m.cls = c
      · rw [if_pos hc]
        exact setAdd_nodup h
      · rw [if_neg hc]
        exact h
    obtain ⟨names, hn, hnd⟩ := ih
      (if m.cls = c then setAdd acc (moduleShortName m.name) else acc) hacc2
    refine ⟨names, ?_, hnd⟩
    rw [List.foldlM_cons]
    have hstep : linearFold (some c) acc m
        = Except.ok (if m.cls = c then setAdd acc (moduleShortName m.name)
          else acc) := rfl
    rw [hstep]
    have hbind : ((Except.ok (if m.cls = c then
          setAdd acc (moduleShortName m.name) else acc) :
          Except PyStr (List PyStr)) >>=
        fun acc2 => rest.foldlM (linearFold (some c)) acc2)
        = rest.foldlM (linearFold (some c))
          (if m.cls = c then setAdd acc (moduleShortName m.name) else acc) :=
      rfl
    rw [hbind]
    exact hn

/-- C10: when `args.bits` is neither 4 nor 8, `find_all_linear_names` does
not return a list — the `else` branch evaluates `torch.nn.Linear` without
binding `cls`, so the first `isinstance(module, cls)` check (which runs for
every nonempty `named_modules()` sequence) raises `NameError`; and when
`args.bits ∈ {4, 8}` the function returns a list that never contains
`'lm_head'`. -/
theorem C10_find_all_linear_names (bits : Int) (modules : List NamedModule) :
    (bits ≠ 4 → bits ≠ 8 → modules ≠ [] →
      find_all_linear_names bits modules
        = Except.error "NameError".toList) ∧
    ((bits = 4 ∨ bits = 8) →
      (find_all_linear_names bits modules).isOk = true ∧
      ∀ l, find_all_linear_names bits modules = Except.ok l →
        "lm_head".toList ∉ l) := by
  constructor
  · intro h4 h8 hmods
    cases modules with
    | nil => exact absurd rfl hmods
    | cons m rest =>
      rw [find_all_linear_names]
      rw [if_neg h4, if_neg h8]
      rfl
  · intro h48
    have hcls : ∃ c, (if bits = 4 then some ModCls.linear4bit
        else if bits = 8 then some ModCls.linear8bitLt else none)
        = some c := by
      rcases h48 with rfl | rfl
      · exact ⟨ModCls.linear4bit, by rw [if_pos rfl]⟩
      · refine ⟨ModCls.linear8bitLt, ?_⟩
        rw [if_neg (by decide), if_pos rfl]
    obtain ⟨c, hc⟩ := hcls
    obtain ⟨names, hfold, hnodup⟩ :=
      linearFold_ok c modules [] List.nodup_nil
    have hmain : find_all_linear_names bits modules
        = Except.ok (if "lm_head".toList ∈ names then
            names.erase "lm_head".toList else names) := by
      rw [find_all_linear_names, hc, hfold]
    constructor
    · rw [hmain]
      rfl
    · intro l hl
      rw [hmain] at hl
      obtain rfl := Except.ok.inj hl
      by_cases hm : "lm_head".toList ∈ names
      · rw [if_pos hm]
        intro hmem
        exact (hnodup.mem_erase_iff.mp hmem).1 rfl
      · rw [if_neg hm]
        exact hm

theorem C10_find_all_linear_names_witness :
    find_all_linear_names 3 [⟨[], ModCls.otherCls⟩]
      = Except.error "NameError".toList ∧
    (find_all_linear_names 4 wModules).isOk = true ∧
    "lm_head".toList ∉ (["q".toList] : List PyStr) :=
  ⟨(C10_find_all_linear_names 3 [⟨[], ModCls.otherCls⟩]).1
      (by decide) (by decide) (by decide),
   ((C10_find_all_linear_names 4 wModules).2 (Or.inl rfl)).1,
   ((C10_find_all_linear_names 4 wModules).2 (Or.inl rfl)).2
     ["q".toList] (by rfl)⟩
